import Mathlib

/-!
Shallow embedding of Loki SafeFormat (SafeFormat.h): the `PrintfState`
formatter state machine, its integer renderer `RenderWithoutSign`, the
directive parsing helpers, and the bounded-buffer `write` sink adapter.

Conventions of the embedding:
* the format string is a NUL-free `List Char`; the cursor `format_` is
  modelled as the remaining suffix, and dereferencing at the end of the
  list yields the NUL terminator (`peek`);
* `unsigned long` / `size_t` values are `Nat` (callers keep them below
  `2^64`; wraparound from C casts is made explicit where it occurs);
* `int result_` is `Int` (the error sentinel is `-1`);
* the sink is the growable-string device: `out` accumulates every
  character written; `Write` is `writeChars`, which is a no-op when the
  result is negative, exactly as in the source;
* pointer-valued arguments carry their address as an explicit `Nat`
  parameter (`reinterpret_cast<unsigned long>`).
-/

namespace SafeFormat

/-- `size_t(-1)`, the "no precision given" sentinel stored in `prec_`. -/
def PNONE : Nat := 2 ^ 64 - 1

/-- The NUL terminator of the format string. -/
def nulChar : Char := Char.ofNat 0

/-- Dereference the format cursor: past the end of the list we read the
NUL terminator, as C code does on a terminated string. -/
def peek (l : List Char) : Char := l.headD nulChar

/-- Flag bits, from the `enum` in `PrintfState`:
`leftJustify = 1`, `showSignAlways = 2`, `blank = 4`, `alternateForm = 8`,
`fillZeros = 16`, `forceShort = 32`. -/
def leftB (fl : Nat) : Bool := fl &&& 1 != 0

/-- `ShowSignAlways()`. -/
def showSignB (fl : Nat) : Bool := fl &&& 2 != 0

/-- `Blank()`. -/
def blankB (fl : Nat) : Bool := fl &&& 4 != 0

/-- `AlternateForm()`. -/
def altB (fl : Nat) : Bool := fl &&& 8 != 0

/-- `FillZeros()`. -/
def fillB (fl : Nat) : Bool := fl &&& 16 != 0

/-- `ForceShort()`. -/
def shortB (fl : Nat) : Bool := fl &&& 32 != 0

/-- The mutable state of `PrintfState<std::string&, char>`: the remaining
format suffix, the current directive's width/precision/flags, the running
`result_`, and the string device contents `out`. -/
structure Fmt where
  fmt : List Char
  width : Nat
  prec : Nat
  flags : Nat
  result : Int
  out : List Char
  deriving DecidableEq

/-- `static_cast<unsigned long>` of a signed 64-bit value: the value's
two's-complement bit pattern read as an unsigned number. -/
def toULong (n : Int) : Nat := (n % (2 ^ 64 : Int)).toNat

/-- `static_cast<long>` of an unsigned 64-bit value: reinterpret the low
64 bits as a two's-complement signed number. -/
def toLong (i : Nat) : Int :=
  if i % 2 ^ 64 < 2 ^ 63 then ((i % 2 ^ 64 : Nat) : Int)
  else ((i % 2 ^ 64 : Nat) : Int) - 2 ^ 64

/-- `LONG_MIN` on an LP64 platform. -/
def LONGMIN : Int := -(2 ^ 63)

/-- One digit character, as computed by
`c += (c <= 9) ? '0' : hex1st - 10` with `hex1st = uppercase ? 'A' : 'a'`. -/
def digitChar (up : Bool) (d : Nat) : Char :=
  if d ≤ 9 then Char.ofNat (48 + d)
  else Char.ofNat ((if up then 65 else 97) - 10 + d)

/-- The digit loop of `RenderWithoutSign(unsigned long, ...)`: divide by
`base`, emit `n % base` as the least significant digit, recurse on the
quotient until it is zero.  `fuel` only bounds the recursion; the loop
stops on a zero quotient, so any `fuel > n` computes the full rendering. -/
def renderU (base : Nat) (up : Bool) : Nat → Nat → List Char
  | 0, _ => []
  | fuel + 1, n =>
    if n / base = 0 then [digitChar up (n % base)]
    else renderU base up fuel (n / base) ++ [digitChar up (n % base)]

/-- `RenderWithoutSign(unsigned long n, char* bufLast, unsigned base, bool up)`:
the digits of `n` in the given base, most significant first. -/
def renderUnsigned (n base : Nat) (up : Bool) : List Char :=
  renderU base up (n + 1) n

/-- `--(*save)`: decrement the character stored at the least significant
digit position (the last rendered character). -/
def decLast : List Char → List Char
  | [] => []
  | [c] => [Char.ofNat (c.toNat - 1)]
  | c :: c2 :: rest => c :: decLast (c2 :: rest)

/-- `RenderWithoutSign(long n, ...)`: for `n ≠ LONG_MIN`, render the
magnitude `(unsigned long)(n < 0 ? -n : n)`; for the `LONG_MIN` corner
case, increment `n`, render `static_cast<unsigned long>(n)` (the
two's-complement pattern of `LONG_MIN + 1`), then decrement the least
significant rendered digit. -/
def renderSigned (n : Int) (base : Nat) (up : Bool) : List Char :=
  if n = LONGMIN then decLast (renderUnsigned (toULong (n + 1)) base up)
  else renderUnsigned (if n < 0 then (-n).toNat else n.toNat) base up

/-- `Write(b, e)` on the string device: a no-op when `result_ < 0`,
otherwise append the range and add its length to `result_`. -/
def writeChars (st : Fmt) (l : List Char) : Fmt :=
  if st.result < 0 then st
  else { st with out := st.out ++ l, result := st.result + (l.length : Int) }

/-- The scanning loop of `Advance()`: returns the literal characters
written to the device and the format suffix left after the loop.  A `%`
followed by anything but `%` (including the terminator) consumes the `%`
and stops; `%%` writes a single `%` and continues; the terminator stops. -/
def advScan : List Char → List Char × List Char
  | [] => ([], [])
  | c :: rest =>
    if c = '%' then
      match rest with
      | r :: rest2 =>
        if r = '%' then
          let p := advScan rest2
          ('%' :: p.1, p.2)
        else ([], rest)
      | [] => ([], [])
    else
      let p := advScan rest
      (c :: p.1, p.2)

/-- `Advance()`: `ResetAll()` (width 0, precision sentinel, flags 0), then
scan literal text, writing it to the device. -/
def advance (st : Fmt) : Fmt :=
  let p := advScan st.fmt
  writeChars { st with fmt := p.2, width := 0, prec := PNONE, flags := 0 } p.1

/-- `Next()`: step over the conversion character and `Advance()`. -/
def next (st : Fmt) : Fmt := advance { st with fmt := st.fmt.tail }

/-- The `PrintfState` constructor: `result_ = 0`, then `Advance()`. -/
def mkState (f : List Char) : Fmt :=
  advance { fmt := f, width := 0, prec := PNONE, flags := 0, result := 0, out := [] }

/-- The flag bit set by one flag character, if it is one
(`- + ' ' # 0`, from `ReadFlags`). -/
def flagBit (c : Char) : Option Nat :=
  if c = '-' then some 1
  else if c = '+' then some 2
  else if c = ' ' then some 4
  else if c = '#' then some 8
  else if c = '0' then some 16
  else none

/-- The loop of `ReadFlags()`: accumulate flag bits until a non-flag
character. -/
def readFlagsAux : List Char → Nat → List Char × Nat
  | [], fl => ([], fl)
  | c :: rest, fl =>
    match flagBit c with
    | some b => readFlagsAux rest (fl ||| b)
    | none => (c :: rest, fl)

/-- `ReadFlags()`. -/
def readFlags (st : Fmt) : Fmt :=
  let p := readFlagsAux st.fmt st.flags
  { st with fmt := p.1, flags := p.2 }

/-- The digit loop of `ParseDecimalUInt`: `r = r * 10 + (c - '0')` in
`unsigned int` arithmetic (mod `2^32`), while digits last. -/
def parseDecAux : List Char → Nat → List Char × Nat
  | [], r => ([], r)
  | c :: rest, r =>
    if c.isDigit then parseDecAux rest ((r * 10 + (c.toNat - 48)) % 2 ^ 32)
    else (c :: rest, r)

/-- `ReadWidth()`: `ParseDecimalUInt(width_)` — the destination is only
stored when at least one digit is present. -/
def readWidth (st : Fmt) : Fmt :=
  if (peek st.fmt).isDigit then
    let p := parseDecAux st.fmt 0
    { st with fmt := p.1, width := p.2 }
  else st

/-- `ReadPrecision()`: step over the `'.'`, then `ParseDecimalUInt(prec_)`
(`prec_` is only stored when at least one digit follows the dot). -/
def readPrecision (st : Fmt) : Fmt :=
  let f1 := st.fmt.tail
  if (peek f1).isDigit then
    let p := parseDecAux f1 0
    { st with fmt := p.1, prec := p.2 }
  else { st with fmt := f1 }

/-- `ReadModifiers()`: `h` sets the force-short flag, `l` is skipped. -/
def readModifiers (st : Fmt) : Fmt :=
  if peek st.fmt = 'h' then { st with flags := st.flags ||| 32, fmt := st.fmt.tail }
  else if peek st.fmt = 'l' then { st with fmt := st.fmt.tail }
  else st

/-- `ReadLeaders()`: flags, width, optional `.`-precision, modifiers. -/
def readLeaders (st : Fmt) : Fmt :=
  let s1 := readWidth (readFlags st)
  let s2 := if peek s1.fmt = '.' then readPrecision s1 else s1
  readModifiers s2

/-- The conversion characters accepted by `FormatWithCurrentFlags`
(the string literal `"cdiuoxX"` given to `strchr`). -/
def cdiuoxXStr : List Char := ['c', 'd', 'i', 'u', 'o', 'x', 'X']

/-- `strchr(s, c) != 0` on a C string literal: true when `c` occurs in
`s` or when `c` is the NUL terminator (which `strchr` also finds). -/
def inCStr (s : List Char) (c : Char) : Bool := c = nulChar || s.contains c

/-- The base chosen in `FormatWithCurrentFlags`: 8 for `o`, 16 for `x`/`X`,
10 otherwise. -/
def fwcfBase (fc : Char) : Nat :=
  if fc = 'o' then 8 else if fc = 'x' || fc = 'X' then 16 else 10

/-- The characters placed in `buf` by `FormatWithCurrentFlags`: a single
cast-to-`char` byte for `c`, the signed rendering for `d`/`i` (and the
`p` rewrite), the unsigned rendering otherwise.  `fc` is the conversion
character after the `p → x` rewrite. -/
def fwcfDigits (fc : Char) (isSigned : Bool) (i : Nat) : List Char :=
  if fc = 'c' then [Char.ofNat (i % 256)]
  else if isSigned then renderSigned (toLong i) (fwcfBase fc) (fc = 'X')
  else renderUnsigned i (fwcfBase fc) (fc = 'X')

/-- The sign character: only for signed conversions, `-` when negative,
else `+` under the show-sign flag, else `' '` under the blank flag.
The `c` branch of the source never sets a sign. -/
def fwcfSign (fc : Char) (isSigned : Bool) (flags : Nat) (i : Nat) : List Char :=
  if fc = 'c' then []
  else if isSigned then
    if toLong i < 0 then ['-']
    else if showSignB flags then ['+']
    else if blankB flags then [' ']
    else []
  else []

/-- `countZeros`: precision zeros, only when a precision was given, the
digit count falls short of it, and the conversion is not `c`. -/
def fwcfCountZeros (fc : Char) (prec countDigits : Nat) : Nat :=
  if prec ≠ PNONE ∧ countDigits < prec ∧ fc ≠ 'c' then prec - countDigits else 0

/-- `countBase`: length of the alternate-form base prefix, computed from
the base, the alternate-form flag, the value, and `countZeros`. -/
def fwcfCountBase (fc : Char) (flags i countZeros : Nat) : Nat :=
  if fwcfBase fc ≠ 10 ∧ altB flags = true ∧ i ≠ 0 then
    if fwcfBase fc = 16 then 2 else if countZeros > 0 then 0 else 1
  else 0

/-- `totalPrintable = countDigits + countZeros + countBase + countSign`. -/
def totalPrintable (fc : Char) (isSigned : Bool) (prec flags : Nat) (i : Nat) : Nat :=
  let digits := fwcfDigits fc isSigned i
  let cz := fwcfCountZeros fc prec digits.length
  digits.length + cz + fwcfCountBase fc flags i cz + (fwcfSign fc isSigned flags i).length

/-- The fully laid-out field of one integer directive: sign, base prefix,
zero padding, digits, and space padding on either side. -/
structure Layout where
  sign : List Char
  pre : List Char
  zeros : Nat
  digits : List Char
  padL : Nat
  padR : Nat
  deriving DecidableEq

/-- The layout computation of `FormatWithCurrentFlags` (lines computing
`countDigits` through `countPadRight`, including the transfer of the left
space padding into zero padding under the fill-zeros flag with no
precision). -/
def fwcfLayout (fc : Char) (isSigned : Bool) (width prec flags : Nat) (i : Nat) : Layout :=
  let digits := fwcfDigits fc isSigned i
  let sign := fwcfSign fc isSigned flags i
  let cz := fwcfCountZeros fc prec digits.length
  let cb := fwcfCountBase fc flags i cz
  let total := digits.length + cz + cb + sign.length
  let pl := if width > total then (if leftB flags = true then 0 else width - total) else 0
  let pr := if width > total then (if leftB flags = true then width - total else 0) else 0
  let zeros := if fillB flags = true ∧ prec = PNONE then pl else cz
  let padL := if fillB flags = true ∧ prec = PNONE then 0 else pl
  let pre := if cb = 2 then ['0', fc] else if cb = 1 then ['0'] else []
  { sign := sign, pre := pre, zeros := zeros, digits := digits, padL := padL, padR := pr }

/-- The emission order of `FormatWithCurrentFlags`: left spaces, sign,
base prefix, zero padding, digits, right spaces. -/
def renderLayout (L : Layout) : List Char :=
  List.replicate L.padL ' ' ++ L.sign ++ L.pre ++
    List.replicate L.zeros '0' ++ L.digits ++ List.replicate L.padR ' '

/-- The full field emitted by `FormatWithCurrentFlags` for one directive. -/
def fwcfCore (fc : Char) (isSigned : Bool) (width prec flags : Nat) (i : Nat) : List Char :=
  renderLayout (fwcfLayout fc isSigned width prec flags i)

/-- `FormatWithCurrentFlags(unsigned long i)`: rewrite `p` to hex with
alternate form and signedness forced on, validate the conversion character
with `strchr("cdiuoxX", ·)` (which also accepts the NUL terminator), clear
the fill-zeros flag for `c`, emit the laid-out field, and `Next()`.
An invalid conversion character sets `result_ = -1`. -/
def fwcf (st : Fmt) (i : Nat) : Fmt :=
  let fc0 := peek st.fmt
  let isSigned := fc0 = 'd' || fc0 = 'i' || fc0 = 'p'
  let fc := if fc0 = 'p' then 'x' else fc0
  let fl1 := if fc0 = 'p' then st.flags ||| 8 else st.flags
  if inCStr cdiuoxXStr fc = false then { st with flags := fl1, result := -1 }
  else
    let fl2 := if fc = 'c' then fl1 &&& (2 ^ 32 - 17) else fl1
    next (writeChars { st with flags := fl2 } (fwcfCore fc isSigned st.width st.prec fl2 i))

/-- The tail of `operator()(unsigned long)` after leader parsing: the
force-short truncation to 16 bits for `x`/`X`/`u`/`o`, then
`FormatWithCurrentFlags`. -/
def opIntTail (st : Fmt) (i : Nat) : Fmt :=
  let j :=
    if shortB st.flags = true ∧
        (peek st.fmt = 'x' ∨ peek st.fmt = 'X' ∨ peek st.fmt = 'u' ∨ peek st.fmt = 'o')
    then i % 2 ^ 16 else i
  fwcf st j

/-- `operator()(unsigned long i)`: no-op when the result is the sentinel;
otherwise read flags, consume the value as a deferred `*` width or `.*`
precision when the cursor says so, else parse width/precision/modifiers
and format. -/
def opInt (st : Fmt) (i : Nat) : Fmt :=
  if st.result = -1 then st
  else
    let s1 := readFlags st
    if peek s1.fmt = '*' then { s1 with width := i, fmt := s1.fmt.tail }
    else
      let s2 := readWidth s1
      if peek s2.fmt = '.' then
        if peek s2.fmt.tail = '*' then { s2 with prec := i, fmt := s2.fmt.tail.tail }
        else opIntTail (readModifiers (readPrecision s2)) i
      else opIntTail (readModifiers s2) i

/-- The forwarding overload `operator()(long)` (and the other signed
integral overloads): `static_cast<unsigned long>` then the shared path. -/
def opLong (st : Fmt) (n : Int) : Fmt := opInt st (toULong n)

/-- `operator()(const char*)`: `p` formats the pointer value, any other
conversion but `s` latches the sentinel; `s` writes
`min(strlen(s), prec_)` characters padded to the width with spaces on the
side given by the left-justify flag, then `Next()`. -/
def opString (st : Fmt) (addr : Nat) (s : List Char) : Fmt :=
  if st.result = -1 then st
  else
    let s1 := readLeaders st
    let fc := peek s1.fmt
    if fc = 'p' then fwcf s1 addr
    else if fc ≠ 's' then { s1 with result := -1 }
    else
      let len := min s.length s1.prec
      let field :=
        if s1.width > len then
          if leftB s1.flags = true then s.take len ++ List.replicate (s1.width - len) ' '
          else List.replicate (s1.width - len) ' ' ++ s.take len
        else s.take len
      next (writeChars s1 field)

/-- `StoreCountHelper(T* pi)` (the `operator()(int*/short*/long*)` path):
`p` formats the pointer value; a conversion other than `n` latches the
sentinel; `n` stores `result_` into the pointee (returned as the second
component) and advances. -/
def opStore (st : Fmt) (addr : Nat) : Fmt × Option Int :=
  if st.result = -1 then (st, none)
  else
    let s1 := readLeaders st
    let fc := peek s1.fmt
    if fc = 'p' then (fwcf s1 addr, none)
    else if fc ≠ 'n' then ({ s1 with result := -1 }, none)
    else (next s1, some s1.result)

/-- `operator int() const`: the observable result. -/
def toInt (st : Fmt) : Int := st.result

/-- The bounded fixed-size buffer sink `std::pair<Char*, std::size_t>`:
the characters written through the cursor so far, and the remaining
capacity `s.second`. -/
structure BufSink where
  written : List Char
  cap : Nat
  deriving DecidableEq

/-- `size_t` subtraction (wraps modulo `2^64`). -/
def subSizeT (a b : Nat) : Nat := (a + 2 ^ 64 - b) % 2 ^ 64

/-- `write(std::pair<Char*, std::size_t>& s, const Char* from, const Char* to)`:
`if (from + s.second > to) throw std::overflow_error` — that is, the fault
fires exactly when the remaining capacity exceeds the requested length —
otherwise `copy` the range and do `s.second -= to - from`.  `none` models
the thrown `std::overflow_error`. -/
def writeBuf (s : BufSink) (data : List Char) : Option BufSink :=
  if data.length < s.cap then none
  else some { written := s.written ++ data, cap := subSizeT s.cap data.length }

/-- The literal characters `Advance()` emits when entered on the given
format suffix. -/
def advEmitted (l : List Char) : List Char := (advScan l).1

/-- Decimal parse of a digit string (specification-side, for the
round-trip property): standard most-significant-first accumulation. -/
def parseDec (l : List Char) : Nat :=
  l.foldl (fun a c => 10 * a + (c.toNat - 48)) 0

/-- Signed decimal parse: a leading `-` negates the parse of the rest. -/
def parseSigned (l : List Char) : Int :=
  if l.head? = some '-' then -(parseDec l.tail : Int) else (parseDec l : Int)

/-- The claim C9 invariant: the observable result is the sentinel or the
exact number of characters written to the device since construction. -/
def resultInv (st : Fmt) : Prop := st.result = -1 ∨ st.result = (st.out.length : Int)

/-! ### Character and cast lemmas -/

lemma charOfNat_toNat (m : Nat) (h : m < 55296) : (Char.ofNat m).toNat = m := by
  have hv : m.isValidChar := Or.inl h
  simp [Char.ofNat, hv, Char.ofNatAux, Char.toNat, UInt32.toNat, BitVec.toNat_ofNatLt]

lemma digitChar_toNat (up : Bool) (d : Nat) (h : d ≤ 9) :
    (digitChar up d).toNat = 48 + d := by
  rw [digitChar, if_pos h, charOfNat_toNat]
  omega

lemma toULong_neg (n : Int) (h1 : -(2 ^ 63) ≤ n) (h2 : n < 0) :
    toULong n = (2 ^ 64 + n).toNat := by
  unfold toULong
  omega

lemma toULong_nonneg (n : Int) (h1 : 0 ≤ n) (h2 : n < 2 ^ 64) :
    toULong n = n.toNat := by
  unfold toULong
  omega

lemma toLong_toULong (n : Int) (h1 : -(2 ^ 63) ≤ n) (h2 : n < 2 ^ 63) :
    toLong (toULong n) = n := by
  unfold toLong toULong
  split <;> omega

/-! ### Decimal round-trip lemmas for the integer renderer -/

lemma parseDec_append_one (l : List Char) (c : Char) :
    parseDec (l ++ [c]) = 10 * parseDec l + (c.toNat - 48) := by
  simp [parseDec, List.foldl_append]

lemma parse_renderU (up : Bool) :
    ∀ fuel n : Nat, n < fuel → parseDec (renderU 10 up fuel n) = n := by
  intro fuel
  induction fuel with
  | zero => intro n h; omega
  | succ f ih =>
    intro n h
    by_cases h10 : n / 10 = 0
    · have h9 : n % 10 ≤ 9 := by omega
      simp [renderU, h10, parseDec, digitChar_toNat up _ h9]
      omega
    · rw [renderU, if_neg h10, parseDec_append_one, ih (n / 10) (by omega),
        digitChar_toNat up _ (by omega)]
      omega

lemma parse_renderUnsigned (up : Bool) (n : Nat) :
    parseDec (renderUnsigned n 10 up) = n :=
  parse_renderU up (n + 1) n (Nat.lt_succ_self n)

lemma renderU_ge48 (up : Bool) :
    ∀ fuel n : Nat, ∀ c ∈ renderU 10 up fuel n, 48 ≤ c.toNat := by
  intro fuel
  induction fuel with
  | zero => intro n c hc; simp [renderU] at hc
  | succ f ih =>
    intro n c hc
    rw [renderU] at hc
    by_cases h10 : n / 10 = 0
    · rw [if_pos h10] at hc
      simp only [List.mem_singleton] at hc
      subst hc
      rw [digitChar_toNat up _ (by omega)]
      omega
    · rw [if_neg h10] at hc
      rcases List.mem_append.1 hc with h | h
      · exact ih _ _ h
      · simp only [List.mem_singleton] at h
        subst h
        rw [digitChar_toNat up _ (by omega)]
        omega

lemma head_ne_dash {l : List Char} (h : ∀ c ∈ l, 48 ≤ c.toNat) :
    l.head? ≠ some '-' := by
  cases l with
  | nil => simp
  | cons a t =>
    intro hEq
    have ha : a = '-' := by simpa using hEq
    have h48 := h a (by simp)
    rw [ha] at h48
    exact absurd h48 (by decide)

lemma parseSigned_eq (l : List Char) (h : l.head? ≠ some '-') :
    parseSigned l = (parseDec l : Int) := by
  simp [parseSigned, h]

lemma decLast_append (l : List Char) (c : Char) :
    decLast (l ++ [c]) = l ++ [Char.ofNat (c.toNat - 1)] := by
  induction l with
  | nil => rfl
  | cons a t ih =>
    cases t with
    | nil => rfl
    | cons b t2 =>
      simp only [List.cons_append]
      rw [decLast]
      simp only [List.cons_append] at ih
      rw [ih]

lemma parseDec_decLast (up : Bool) (fuel n : Nat) (hf : n < fuel) (hm : 1 ≤ n % 10) :
    parseDec (decLast (renderU 10 up fuel n)) = n - 1 := by
  cases fuel with
  | zero => omega
  | succ f =>
    by_cases h10 : n / 10 = 0
    · have h1 : (digitChar up (n % 10)).toNat - 1 = 47 + n % 10 := by
        rw [digitChar_toNat up _ (by omega)]
        omega
      rw [renderU, if_pos h10,
        show decLast [digitChar up (n % 10)]
          = [Char.ofNat ((digitChar up (n % 10)).toNat - 1)] from rfl,
        h1]
      simp [parseDec, charOfNat_toNat (47 + n % 10) (by omega)]
      omega
    · rw [renderU, if_neg h10, decLast_append, parseDec_append_one,
        parse_renderU up f (n / 10) (by omega),
        digitChar_toNat up _ (by omega), charOfNat_toNat _ (by omega)]
      omega

/-! ### Field-preservation lemmas for the leader parsers -/

lemma readFlags_out (st : Fmt) : (readFlags st).out = st.out := rfl

lemma readFlags_result (st : Fmt) : (readFlags st).result = st.result := rfl

lemma readWidth_out (st : Fmt) : (readWidth st).out = st.out := by
  unfold readWidth
  split <;> rfl

lemma readWidth_result (st : Fmt) : (readWidth st).result = st.result := by
  unfold readWidth
  split <;> rfl

lemma readPrecision_out (st : Fmt) : (readPrecision st).out = st.out := by
  unfold readPrecision
  dsimp only
  split <;> rfl

lemma readPrecision_result (st : Fmt) : (readPrecision st).result = st.result := by
  unfold readPrecision
  dsimp only
  split <;> rfl

lemma readModifiers_out (st : Fmt) : (readModifiers st).out = st.out := by
  unfold readModifiers
  split
  · rfl
  · split <;> rfl

lemma readModifiers_result (st : Fmt) : (readModifiers st).result = st.result := by
  unfold readModifiers
  split
  · rfl
  · split <;> rfl

lemma readLeaders_out (st : Fmt) : (readLeaders st).out = st.out := by
  unfold readLeaders
  rw [readModifiers_out]
  split
  · rw [readPrecision_out, readWidth_out, readFlags_out]
  · rw [readWidth_out, readFlags_out]

lemma readLeaders_result (st : Fmt) : (readLeaders st).result = st.result := by
  unfold readLeaders
  rw [readModifiers_result]
  split
  · rw [readPrecision_result, readWidth_result, readFlags_result]
  · rw [readWidth_result, readFlags_result]

/-! ### Characterizations of the write and scan operations -/

lemma writeChars_eq (st : Fmt) (l : List Char) (h : 0 ≤ st.result) :
    writeChars st l
      = { st with out := st.out ++ l, result := st.result + (l.length : Int) } := by
  unfold writeChars
  rw [if_neg (by omega)]

lemma advance_eq (st : Fmt) (h : 0 ≤ st.result) :
    advance st
      = { fmt := (advScan st.fmt).2, width := 0, prec := PNONE, flags := 0,
          result := st.result + ((advEmitted st.fmt).length : Int),
          out := st.out ++ advEmitted st.fmt } := by
  unfold advance advEmitted
  dsimp only
  rw [writeChars_eq ⟨(advScan st.fmt).2, 0, PNONE, 0, st.result, st.out⟩ (advScan st.fmt).1 h]

lemma next_eq (st : Fmt) (h : 0 ≤ st.result) :
    next st
      = { fmt := (advScan st.fmt.tail).2, width := 0, prec := PNONE, flags := 0,
          result := st.result + ((advEmitted st.fmt.tail).length : Int),
          out := st.out ++ advEmitted st.fmt.tail } := by
  unfold next
  rw [advance_eq { st with fmt := st.fmt.tail } h]

/-! ### Trace lemmas: reaching `FormatWithCurrentFlags` from a consumption call -/

lemma readFlagsAux_nonflag (c : Char) (rest : List Char) (fl : Nat)
    (h : flagBit c = none) : readFlagsAux (c :: rest) fl = (c :: rest, fl) := by
  unfold readFlagsAux
  rw [h]

lemma readFlags_nonflag (st : Fmt) (c : Char) (rest : List Char)
    (hf : st.fmt = c :: rest) (h : flagBit c = none) : readFlags st = st := by
  unfold readFlags
  rw [hf, readFlagsAux_nonflag _ _ _ h, ← hf]

lemma readWidth_nondigit (st : Fmt) (h : (peek st.fmt).isDigit = false) :
    readWidth st = st := by
  unfold readWidth
  rw [h]
  simp

lemma readModifiers_nonmod (st : Fmt) (hh : peek st.fmt ≠ 'h') (hl : peek st.fmt ≠ 'l') :
    readModifiers st = st := by
  unfold readModifiers
  rw [if_neg hh, if_neg hl]

lemma opInt_conv (st : Fmt) (i : Nat) (c : Char) (rest : List Char)
    (hf : st.fmt = c :: rest) (hr : st.result ≠ -1)
    (hflag : flagBit c = none) (hstar : c ≠ '*') (hdig : c.isDigit = false)
    (hdot : c ≠ '.') (hh : c ≠ 'h') (hl : c ≠ 'l')
    (hxuo : ¬(c = 'x' ∨ c = 'X' ∨ c = 'u' ∨ c = 'o')) :
    opInt st i = fwcf st i := by
  have hpeek : peek st.fmt = c := by rw [hf]; rfl
  have hrf : readFlags st = st := readFlags_nonflag st c rest hf hflag
  have hrw : readWidth st = st := readWidth_nondigit st (by rw [hpeek, hdig])
  have hrm : readModifiers st = st :=
    readModifiers_nonmod st (by rw [hpeek]; exact hh) (by rw [hpeek]; exact hl)
  unfold opInt
  dsimp only
  rw [if_neg hr, hrf, hpeek, if_neg hstar, hrw, hpeek, if_neg hdot, hrm]
  unfold opIntTail
  dsimp only
  rw [hpeek, if_neg (fun hand => hxuo hand.2)]

lemma next_out (st : Fmt) (h : 0 ≤ st.result) :
    (next st).out = st.out ++ advEmitted st.fmt.tail := by
  rw [next_eq st h]

lemma fwcf_valid (st : Fmt) (i : Nat) (c : Char) (hpeek : peek st.fmt = c)
    (hc : cdiuoxXStr.contains c = true) (hp : c ≠ 'p') (hcc : c ≠ 'c') :
    fwcf st i
      = next (writeChars st (fwcfCore c (c = 'd' || c = 'i') st.width st.prec st.flags i)) := by
  have hin : inCStr cdiuoxXStr c = true := by
    unfold inCStr
    rw [hc]
    simp
  unfold fwcf
  dsimp only
  rw [hpeek]
  simp only [if_neg hp, if_neg hcc, hin, decide_eq_false hp, Bool.or_false]
  simp

lemma fwcfCore_plain (c : Char) (hc : c = 'd' ∨ c = 'i') (u : Nat) :
    fwcfCore c true 0 PNONE 0 u = fwcfSign c true 0 u ++ fwcfDigits c true u := by
  rcases hc with h | h <;> subst h <;>
    simp [fwcfCore, fwcfLayout, renderLayout, fwcfCountZeros, fwcfCountBase, fwcfBase,
      fillB, leftB]

lemma opLong_di_out (c : Char) (n : Int)
    (hflag : flagBit c = none) (hstar : c ≠ '*') (hdig : c.isDigit = false)
    (hdot : c ≠ '.') (hh : c ≠ 'h') (hl : c ≠ 'l')
    (hxuo : ¬(c = 'x' ∨ c = 'X' ∨ c = 'u' ∨ c = 'o'))
    (hc : cdiuoxXStr.contains c = true) (hp : c ≠ 'p') (hcc : c ≠ 'c')
    (hmk : mkState ['%', c] = ⟨[c], 0, PNONE, 0, 0, []⟩) :
    (opLong (mkState ['%', c]) n).out
      = fwcfCore c (c = 'd' || c = 'i') 0 PNONE 0 (toULong n) := by
  rw [opLong, hmk,
    opInt_conv ⟨[c], 0, PNONE, 0, 0, []⟩ (toULong n) c [] rfl
      (show (0 : Int) ≠ -1 by decide) hflag hstar hdig hdot hh hl hxuo,
    fwcf_valid ⟨[c], 0, PNONE, 0, 0, []⟩ (toULong n) c rfl hc hp hcc,
    writeChars_eq ⟨[c], 0, PNONE, 0, 0, []⟩ _ (show (0 : Int) ≤ 0 by decide)]
  rw [next_out _ (by simp)]
  simp [advEmitted, advScan]

lemma parseSigned_neg (l : List Char) : parseSigned ('-' :: l) = -(parseDec l : Int) := by
  unfold parseSigned
  rw [if_pos (show ('-' :: l).head? = some '-' from rfl)]
  rfl

/-- C3: for every representable signed long value `n`, including `LONG_MIN`,
formatting `n` with a `%d` or `%i` directive emits a sign-and-decimal-digit
sequence that, parsed back as a decimal integer, equals `n` exactly.  The
`LONG_MIN` corner case goes through the no-direct-negation path of
`RenderWithoutSign(long, ...)`: the digits of the unsigned reinterpretation
of `n + 1` are rendered and the least significant rendered digit is
decremented before the sign is prepended. -/
theorem C3_decimal_roundtrip (n : Int) (h1 : -(2 ^ 63) ≤ n) (h2 : n < 2 ^ 63) :
    parseSigned ((opLong (mkState ['%', 'd']) n).out) = n ∧
    parseSigned ((opLong (mkState ['%', 'i']) n).out) = n := by
  have hgen : ∀ c : Char, c = 'd' ∨ c = 'i' →
      parseSigned ((opLong (mkState ['%', c]) n).out) = n := by
    intro c hc
    have hout : (opLong (mkState ['%', c]) n).out
        = fwcfCore c true 0 PNONE 0 (toULong n) := by
      rcases hc with h | h <;> subst h
      · rw [opLong_di_out 'd' n (by decide) (by decide) (by decide) (by decide)
          (by decide) (by decide) (by decide) (by decide) (by decide) (by decide)
          (by decide)]
        rfl
      · rw [opLong_di_out 'i' n (by decide) (by decide) (by decide) (by decide)
          (by decide) (by decide) (by decide) (by decide) (by decide) (by decide)
          (by decide)]
        rfl
    rw [hout, fwcfCore_plain c hc (toULong n)]
    have hsign : fwcfSign c true 0 (toULong n) = if n < 0 then ['-'] else [] := by
      unfold fwcfSign
      rw [toLong_toULong n h1 h2]
      rcases hc with h | h <;> subst h <;> simp [showSignB, blankB]
    have hdigs : fwcfDigits c true (toULong n) = renderSigned n 10 false := by
      unfold fwcfDigits
      rw [toLong_toULong n h1 h2]
      rcases hc with h | h <;> subst h <;> simp [fwcfBase]
    rw [hsign, hdigs]
    by_cases hneg : n < 0
    · rw [if_pos hneg]
      by_cases hmin : n = LONGMIN
      · subst hmin
        rw [renderSigned, if_pos rfl,
          show toULong (LONGMIN + 1) = 2 ^ 63 + 1 by decide]
        have hval : parseDec (decLast (renderUnsigned (2 ^ 63 + 1) 10 false))
            = 2 ^ 63 := by
          rw [renderUnsigned, parseDec_decLast false (2 ^ 63 + 1 + 1) (2 ^ 63 + 1)
            (by omega) (by norm_num)]
          omega
        rw [List.singleton_append, parseSigned_neg, hval]
        unfold LONGMIN
        norm_num
      · rw [renderSigned, if_neg hmin, if_pos hneg]
        rw [List.singleton_append, parseSigned_neg]
        rw [show renderUnsigned (-n).toNat 10 false
            = renderU 10 false ((-n).toNat + 1) (-n).toNat from rfl,
          parse_renderU false _ _ (Nat.lt_succ_self _)]
        omega
    · rw [if_neg hneg]
      have hmin : n ≠ LONGMIN := by
        unfold LONGMIN
        omega
      rw [renderSigned, if_neg hmin, if_neg hneg, List.nil_append]
      have hh := head_ne_dash (renderU_ge48 false (n.toNat + 1) n.toNat)
      rw [show renderUnsigned n.toNat 10 false
          = renderU 10 false (n.toNat + 1) n.toNat from rfl,
        parseSigned_eq _ hh, parse_renderU false _ _ (Nat.lt_succ_self _)]
      omega
  exact ⟨hgen 'd' (Or.inl rfl), hgen 'i' (Or.inr rfl)⟩

/-- C3 witness: the theorem applied at the most negative long. -/
theorem C3_decimal_roundtrip_witness :
    (-(2 ^ 63) ≤ LONGMIN ∧ LONGMIN < 2 ^ 63) ∧
    parseSigned ((opLong (mkState ['%', 'd']) LONGMIN).out) = LONGMIN :=
  ⟨by constructor <;> decide,
    (C3_decimal_roundtrip LONGMIN (by decide) (by decide)).1⟩

/-- C1, evaluated at the failing input: a write of 3 characters into a
bounded sink with remaining capacity 10 fits, yet the sink raises the
capacity-exceeded fault; while a write of 5 characters into remaining
capacity 2 — which exceeds the capacity — is not rejected: the characters
are copied past the buffer and the remaining capacity wraps to `2^64 - 3`.
The guard `from + s.second > to` fires exactly when the capacity exceeds
the length, the reverse of the documented condition. -/
theorem C1_bounded_write_guard_reversed :
    writeBuf { written := [], cap := 10 } ['a', 'b', 'c'] = none ∧
    (['a', 'b', 'c'] : List Char).length ≤ 10 ∧
    writeBuf { written := [], cap := 2 } ['a', 'b', 'c', 'd', 'e']
      = some { written := ['a', 'b', 'c', 'd', 'e'], cap := 2 ^ 64 - 3 } := by
  decide

/-- C2: once `result_` is the sentinel `-1`, every subsequent
argument-consumption call and every `Write` is a no-op: the state
(including the sink contents and the result observable through the `int`
conversion) is unchanged, and no count-store pointee is written. -/
theorem C2_error_sentinel_sticky (st : Fmt) (i addr addr2 : Nat)
    (s l : List Char) (h : st.result = -1) :
    opInt st i = st ∧ opString st addr s = st ∧ opStore st addr2 = (st, none) ∧
    writeChars st l = st ∧ toInt (opInt st i) = -1 := by
  have h1 : opInt st i = st := by
    unfold opInt
    rw [if_pos h]
  refine ⟨h1, ?_, ?_, ?_, ?_⟩
  · unfold opString
    rw [if_pos h]
  · unfold opStore
    rw [if_pos h]
  · unfold writeChars
    rw [if_pos (by omega)]
  · unfold toInt
    rw [h1]
    exact h

/-- C2 witness: a latched state fed further arguments stays unchanged. -/
theorem C2_error_sentinel_sticky_witness :
    (⟨['d'], 0, PNONE, 0, -1, ['x']⟩ : Fmt).result = -1 ∧
    opInt ⟨['d'], 0, PNONE, 0, -1, ['x']⟩ 7 = ⟨['d'], 0, PNONE, 0, -1, ['x']⟩ ∧
    opStore ⟨['d'], 0, PNONE, 0, -1, ['x']⟩ 5
      = (⟨['d'], 0, PNONE, 0, -1, ['x']⟩, none) :=
  have h := C2_error_sentinel_sticky ⟨['d'], 0, PNONE, 0, -1, ['x']⟩ 7 3 5 ['h'] ['y'] rfl
  ⟨rfl, h.1, h.2.2.1⟩

/-- C4, evaluated at the failing input: feeding the integer 5 to the
trailing incomplete directive of format "%" does not latch the sentinel.
Because `strchr("cdiuoxX", formatChar)` also finds the NUL terminator,
the terminator passes the conversion-character validation and the value
is rendered in decimal: the result is 1 and the output is "5". -/
theorem C4_trailing_directive_accepted :
    (opInt (mkState ['%']) 5).out = ['5'] ∧
    toInt (opInt (mkState ['%']) 5) = 1 ∧
    ¬ toInt (opInt (mkState ['%']) 5) = -1 := by
  decide

/-- C10: a negative integer supplied for a deferred `*` width sets the
width to the two's-complement reinterpretation of the value as `size_t`
(a value above `2^63`), rather than its absolute value, and leaves the
flags (in particular left-justify) untouched. -/
theorem C10_negative_star_width (st : Fmt) (rest : List Char) (n : Int)
    (hf : st.fmt = '*' :: rest) (hr : st.result ≠ -1)
    (h1 : -(2 ^ 31) ≤ n) (h2 : n < 0) :
    opInt st (toULong n) = { st with width := (2 ^ 64 + n).toNat, fmt := rest } ∧
    2 ^ 63 < (2 ^ 64 + n).toNat := by
  constructor
  · have hrf : readFlags st = st := readFlags_nonflag st '*' rest hf (by decide)
    have hpeek : peek st.fmt = '*' := by rw [hf]; rfl
    unfold opInt
    dsimp only
    rw [if_neg hr, hrf, hpeek, if_pos rfl, hf, toULong_neg n (by omega) h2]
    rfl
  · omega

/-- C10 witness: feeding `-1` as a deferred width yields width `2^64 - 1`. -/
theorem C10_negative_star_width_witness :
    ((⟨['*', 'd'], 0, PNONE, 0, 0, []⟩ : Fmt).fmt = '*' :: ['d'] ∧
      (⟨['*', 'd'], 0, PNONE, 0, 0, []⟩ : Fmt).result ≠ -1 ∧
      -(2 ^ 31) ≤ (-1 : Int) ∧ (-1 : Int) < 0) ∧
    opInt ⟨['*', 'd'], 0, PNONE, 0, 0, []⟩ (toULong (-1))
      = ⟨['d'], 2 ^ 64 - 1, PNONE, 0, 0, []⟩ := by
  have h := C10_negative_star_width ⟨['*', 'd'], 0, PNONE, 0, 0, []⟩ ['d'] (-1)
    rfl (by decide) (by decide) (by decide)
  refine ⟨⟨rfl, by decide, by decide, by decide⟩, ?_⟩
  rw [h.1]
  decide

lemma advScan_pp (pre : List Char) : ∀ rest : List Char, '%' ∉ pre →
    advScan (pre ++ '%' :: '%' :: rest)
      = (pre ++ '%' :: (advScan rest).1, (advScan rest).2) := by
  induction pre with
  | nil =>
    intro rest _
    simp [advScan]
  | cons a t ih =>
    intro rest h
    have ha : a ≠ '%' := fun hEq => h (hEq ▸ List.mem_cons_self a t)
    have ht : '%' ∉ t := fun hm => h (List.mem_cons_of_mem a hm)
    simp only [List.cons_append]
    rw [advScan.eq_def]
    dsimp only
    rw [if_neg ha, ih rest ht]

/-- C6: every `%%` in the format string emits exactly one literal `%` and
consumes no argument: `Advance` entered on `pre ++ "%%" ++ rest` (with no
`%` in the literal prefix `pre`) writes `pre` verbatim followed by one
`%`, adds their length to the result, and continues scanning `rest` — it
behaves exactly like `Advance` entered on `rest` after that emission.
`Advance` takes no argument, so no argument is consumed. -/
theorem C6_percent_percent (st : Fmt) (pre rest : List Char)
    (hp : '%' ∉ pre) (hr : 0 ≤ st.result)
    (hf : st.fmt = pre ++ '%' :: '%' :: rest) :
    advance st
      = advance ⟨rest, st.width, st.prec, st.flags,
          st.result + (pre.length : Int) + 1, st.out ++ pre ++ ['%']⟩ := by
  rw [advance_eq st hr,
    advance_eq ⟨rest, st.width, st.prec, st.flags,
      st.result + (pre.length : Int) + 1, st.out ++ pre ++ ['%']⟩
      (show (0 : Int) ≤ st.result + (pre.length : Int) + 1 by omega)]
  simp only [hf, advEmitted, advScan_pp pre rest hp, Fmt.mk.injEq, true_and]
  constructor
  · simp only [List.length_append, List.length_cons]
    push_cast
    ring
  · simp [List.append_assoc]

/-- C6 witness: the theorem applied to the format suffix "a%%b". -/
theorem C6_percent_percent_witness :
    ('%' ∉ (['a'] : List Char) ∧
      0 ≤ (⟨['a', '%', '%', 'b'], 0, PNONE, 0, 0, []⟩ : Fmt).result) ∧
    advance ⟨['a', '%', '%', 'b'], 0, PNONE, 0, 0, []⟩
      = advance ⟨['b'], 0, PNONE, 0, 2, ['a', '%']⟩ := by
  have h := C6_percent_percent ⟨['a', '%', '%', 'b'], 0, PNONE, 0, 0, []⟩ ['a'] ['b']
    (by decide) (by decide) rfl
  refine ⟨⟨by decide, by decide⟩, ?_⟩
  rw [h]
  decide

/-- C7: for a directive whose conversion character (after leader parsing)
is `s`, feeding a C string emits exactly `min(strlen(s), prec)` characters
of the string — the whole string when the precision is unset, since the
sentinel is larger than any string length — padded with spaces to the
width, on the right under the left-justify flag and on the left otherwise,
followed by the literal text up to the next directive. -/
theorem C7_string_directive (st : Fmt) (addr : Nat) (s : List Char)
    (hr : 0 ≤ st.result) (hs : peek (readLeaders st).fmt = 's') :
    (opString st addr s).out
      = st.out
        ++ (if (readLeaders st).width > min s.length (readLeaders st).prec then
              (if leftB (readLeaders st).flags = true then
                s.take (min s.length (readLeaders st).prec)
                  ++ List.replicate
                      ((readLeaders st).width - min s.length (readLeaders st).prec) ' '
              else
                List.replicate
                    ((readLeaders st).width - min s.length (readLeaders st).prec) ' '
                  ++ s.take (min s.length (readLeaders st).prec))
            else s.take (min s.length (readLeaders st).prec))
        ++ advEmitted (readLeaders st).fmt.tail := by
  have hrr : (readLeaders st).result = st.result := readLeaders_result st
  have hro : (readLeaders st).out = st.out := readLeaders_out st
  unfold opString
  dsimp only
  rw [if_neg (show ¬ st.result = -1 by omega), hs,
    if_neg (show ¬ ('s' : Char) = 'p' by decide),
    if_neg (show ¬ ('s' : Char) ≠ 's' by simp)]
  rw [writeChars_eq (readLeaders st) _ (by omega)]
  rw [next_out _ (by simp only [hrr]; omega)]
  simp [hro, List.append_assoc]

/-- C7 witness: the spec scenario — format "%.3s" with the 5-character
string "hello" emits "hel". -/
theorem C7_string_directive_witness :
    (0 ≤ (mkState ['%', '.', '3', 's']).result ∧
      peek (readLeaders (mkState ['%', '.', '3', 's'])).fmt = 's') ∧
    (opString (mkState ['%', '.', '3', 's']) 0 ['h', 'e', 'l', 'l', 'o']).out
      = ['h', 'e', 'l'] := by
  have h := C7_string_directive (mkState ['%', '.', '3', 's']) 0 ['h', 'e', 'l', 'l', 'o']
    (by decide) (by decide)
  refine ⟨⟨by decide, by decide⟩, ?_⟩
  rw [h]
  decide

lemma readLeaders_id (st : Fmt) (c : Char) (rest : List Char)
    (hf : st.fmt = c :: rest) (hflag : flagBit c = none)
    (hdig : c.isDigit = false) (hdot : c ≠ '.') (hh : c ≠ 'h') (hl : c ≠ 'l') :
    readLeaders st = st := by
  have hpeek : peek st.fmt = c := by
    rw [hf]
    rfl
  unfold readLeaders
  dsimp only
  rw [readFlags_nonflag st c rest hf hflag, readWidth_nondigit st (by rw [hpeek, hdig])]
  rw [hpeek, if_neg hdot,
    readModifiers_nonmod st (by rw [hpeek]; exact hh) (by rw [hpeek]; exact hl)]

lemma fwcf_invalid (st : Fmt) (i : Nat) (c : Char) (hpeek : peek st.fmt = c)
    (hnul : c ≠ nulChar) (hno : cdiuoxXStr.contains c = false) (hp : c ≠ 'p') :
    fwcf st i = { st with result := -1 } := by
  have hin : inCStr cdiuoxXStr c = false := by
    unfold inCStr
    rw [hno]
    simp [hnul]
  unfold fwcf
  dsimp only
  rw [hpeek, if_neg hp, if_neg hp, hin, if_pos rfl]

/-- C8: an argument whose kind mismatches the conversion character latches
the terminal sentinel without touching the sink, each mismatch family with
its own excluded set: a C string fed to a directive that is neither `s`
nor `p` (for example `%d`), an integer fed to a conversion character
outside `c d i u o x X` and not `p` (for example `%s`), and a count-store
pointer fed to a conversion that is neither `n` nor `p` — each sets the
result to `-1`, leaves every previously emitted character in place, and
stores nothing through the count pointer.  (No exception is involved:
every operation is a total function returning the latched state.  The
leading hypotheses only position `c` as the conversion character the
cursor rests on: not a flag, digit, dot, length modifier, or deferred
`*`.) -/
theorem C8_kind_mismatch (st : Fmt) (c : Char) (rest : List Char)
    (i addr addr2 : Nat) (s : List Char)
    (hf : st.fmt = c :: rest) (hr : st.result ≠ -1)
    (hflag : flagBit c = none) (hdig : c.isDigit = false) (hdot : c ≠ '.')
    (hh : c ≠ 'h') (hl : c ≠ 'l') (hstar : c ≠ '*') :
    (c ≠ 'p' → c ≠ 's' →
      (opString st addr s).result = -1 ∧ (opString st addr s).out = st.out) ∧
    (c ∉ cdiuoxXStr → c ≠ 'p' → c ≠ nulChar →
      (opInt st i).result = -1 ∧ (opInt st i).out = st.out) ∧
    (c ≠ 'p' → c ≠ 'n' →
      (opStore st addr2).1.result = -1 ∧ (opStore st addr2).1.out = st.out ∧
        (opStore st addr2).2 = none) := by
  have hpeek : peek st.fmt = c := by
    rw [hf]
    rfl
  have hlead : readLeaders st = st := readLeaders_id st c rest hf hflag hdig hdot hh hl
  refine ⟨?_, ?_, ?_⟩
  · intro hp hs
    unfold opString
    dsimp only
    rw [if_neg hr, hlead, hpeek, if_neg hp, if_pos hs]
    exact ⟨rfl, rfl⟩
  · intro hmem hp hnul
    have hno : cdiuoxXStr.contains c = false := by simpa using hmem
    have hxuo : ¬(c = 'x' ∨ c = 'X' ∨ c = 'u' ∨ c = 'o') := by
      intro hor
      rcases hor with h | h | h | h <;> subst h <;> exact hmem (by decide)
    rw [opInt_conv st i c rest hf hr hflag hstar hdig hdot hh hl hxuo,
      fwcf_invalid st i c hpeek hnul hno hp]
    exact ⟨rfl, rfl⟩
  · intro hp hn
    unfold opStore
    dsimp only
    rw [if_neg hr, hlead, hpeek, if_neg hp, if_pos hn]
    exact ⟨rfl, rfl, rfl⟩

/-- C8 witness: the spec scenario and its mirror images — a string fed to
"%d" latches `-1` and preserves the prior output "ab", an integer fed to
"%s" latches `-1`, and a count pointer fed to "%d" stores nothing. -/
theorem C8_kind_mismatch_witness :
    (((⟨['d'], 0, PNONE, 0, 2, ['a', 'b']⟩ : Fmt).result ≠ -1 ∧ ('d' : Char) ≠ 's') ∧
      (('s' : Char) ∉ cdiuoxXStr ∧ ('d' : Char) ≠ 'n')) ∧
    (opString ⟨['d'], 0, PNONE, 0, 2, ['a', 'b']⟩ 3 ['h', 'i']).result = -1 ∧
    (opString ⟨['d'], 0, PNONE, 0, 2, ['a', 'b']⟩ 3 ['h', 'i']).out = ['a', 'b'] ∧
    (opInt ⟨['s'], 0, PNONE, 0, 0, []⟩ 7).result = -1 ∧
    (opStore ⟨['d'], 0, PNONE, 0, 2, ['a', 'b']⟩ 5).2 = none := by
  have hd := C8_kind_mismatch ⟨['d'], 0, PNONE, 0, 2, ['a', 'b']⟩ 'd' [] 7 3 5 ['h', 'i']
    rfl (by decide) (by decide) (by decide) (by decide) (by decide) (by decide) (by decide)
  have hstr := C8_kind_mismatch ⟨['s'], 0, PNONE, 0, 0, []⟩ 's' [] 7 3 5 ['h', 'i']
    rfl (by decide) (by decide) (by decide) (by decide) (by decide) (by decide) (by decide)
  exact ⟨⟨⟨by decide, by decide⟩, ⟨by decide, by decide⟩⟩,
    (hd.1 (by decide) (by decide)).1, (hd.1 (by decide) (by decide)).2,
    (hstr.2.1 (by decide) (by decide) (by decide)).1,
    (hd.2.2 (by decide) (by decide)).2.2⟩

/-! ### Preservation of the result-counts-output invariant -/

lemma resultInv_of_eq {st₂ st₁ : Fmt} (ho : st₂.out = st₁.out)
    (hr : st₂.result = st₁.result) (h : resultInv st₁) : resultInv st₂ := by
  unfold resultInv at *
  rw [ho, hr]
  exact h

lemma resultInv_writeChars (st : Fmt) (l : List Char) (h : resultInv st) :
    resultInv (writeChars st l) := by
  unfold writeChars
  split
  · exact h
  · rcases h with h | h
    · exact absurd h (by omega)
    · right
      simp only [List.length_append, h]
      push_cast
      ring

lemma resultInv_advance (st : Fmt) (h : resultInv st) : resultInv (advance st) := by
  unfold advance
  dsimp only
  exact resultInv_writeChars _ _ h

lemma resultInv_next (st : Fmt) (h : resultInv st) : resultInv (next st) :=
  resultInv_advance _ h

lemma resultInv_mkState (f : List Char) : resultInv (mkState f) :=
  resultInv_advance _ (Or.inr rfl)

lemma resultInv_fwcf (st : Fmt) (i : Nat) (h : resultInv st) :
    resultInv (fwcf st i) := by
  unfold fwcf
  dsimp only
  repeat' split
  all_goals
    first
      | exact Or.inl rfl
      | exact resultInv_next _ (resultInv_writeChars _ _ h)

lemma resultInv_opIntTail (st : Fmt) (i : Nat) (h : resultInv st) :
    resultInv (opIntTail st i) := by
  unfold opIntTail
  dsimp only
  exact resultInv_fwcf _ _ h

lemma resultInv_opInt (st : Fmt) (i : Nat) (h : resultInv st) :
    resultInv (opInt st i) := by
  unfold opInt
  dsimp only
  split
  · exact h
  · have h1 : resultInv (readFlags st) :=
      resultInv_of_eq (readFlags_out st) (readFlags_result st) h
    split
    · exact h1
    · have h2 : resultInv (readWidth (readFlags st)) :=
        resultInv_of_eq (readWidth_out _) (readWidth_result _) h1
      split
      · split
        · exact h2
        · exact resultInv_opIntTail _ _
            (resultInv_of_eq (readModifiers_out _) (readModifiers_result _)
              (resultInv_of_eq (readPrecision_out _) (readPrecision_result _) h2))
      · exact resultInv_opIntTail _ _
          (resultInv_of_eq (readModifiers_out _) (readModifiers_result _) h2)

lemma resultInv_opString (st : Fmt) (addr : Nat) (s : List Char) (h : resultInv st) :
    resultInv (opString st addr s) := by
  unfold opString
  dsimp only
  split
  · exact h
  · have h1 : resultInv (readLeaders st) :=
      resultInv_of_eq (readLeaders_out st) (readLeaders_result st) h
    split
    · exact resultInv_fwcf _ _ h1
    · split
      · exact Or.inl rfl
      · exact resultInv_next _ (resultInv_writeChars _ _ h1)

lemma resultInv_opStore (st : Fmt) (addr : Nat) (h : resultInv st) :
    resultInv (opStore st addr).1 := by
  unfold opStore
  by_cases h0 : st.result = -1
  · rw [if_pos h0]
    exact h
  · rw [if_neg h0]
    dsimp only
    have h1 : resultInv (readLeaders st) :=
      resultInv_of_eq (readLeaders_out st) (readLeaders_result st) h
    split
    · dsimp only
      exact resultInv_fwcf _ _ h1
    · split
      · dsimp only
        exact Or.inl rfl
      · dsimp only
        exact resultInv_next _ h1

/-- C9: the observable result is always either the sentinel `-1` or
exactly the number of characters emitted to the sink since construction:
the invariant holds at construction, is preserved by every
argument-consumption operation, and a successful `Write` adds to the
result exactly the length of the range written (no other operation
changes it, as the preserved invariant shows). -/
theorem C9_result_counts_output (f : List Char) (st : Fmt) (i addr addr2 : Nat)
    (s l : List Char) (h : resultInv st) :
    resultInv (mkState f) ∧ resultInv (opInt st i) ∧
    resultInv (opString st addr s) ∧ resultInv (opStore st addr2).1 ∧
    (0 ≤ st.result →
      writeChars st l
        = { st with out := st.out ++ l, result := st.result + (l.length : Int) }) :=
  ⟨resultInv_mkState f, resultInv_opInt st i h, resultInv_opString st addr s h,
    resultInv_opStore st addr2 h, fun h0 => writeChars_eq st l h0⟩

/-- C9 witness: the invariant instantiated at a concrete state. -/
theorem C9_result_counts_output_witness :
    (resultInv (⟨['d'], 0, PNONE, 0, 0, []⟩ : Fmt) ∧
      0 ≤ (⟨['d'], 0, PNONE, 0, 0, []⟩ : Fmt).result) ∧
    resultInv (mkState ['x', '%', 'd']) ∧
    resultInv (opInt ⟨['d'], 0, PNONE, 0, 0, []⟩ 7) ∧
    writeChars ⟨['d'], 0, PNONE, 0, 0, []⟩ ['y']
      = ⟨['d'], 0, PNONE, 0, 0 + ((1 : Nat) : Int), ['y']⟩ := by
  have h := C9_result_counts_output ['x', '%', 'd'] ⟨['d'], 0, PNONE, 0, 0, []⟩ 7 3 5
    ['h'] ['y'] (Or.inr rfl)
  exact ⟨⟨Or.inr rfl, by decide⟩, h.1, h.2.1, h.2.2.2.2 (by decide)⟩

lemma fwcfCountBase_le2 (fc : Char) (flags i cz : Nat) :
    fwcfCountBase fc flags i cz = 0 ∨ fwcfCountBase fc flags i cz = 1 ∨
    fwcfCountBase fc flags i cz = 2 := by
  unfold fwcfCountBase
  split
  · split
    · right; right; rfl
    · split
      · left; rfl
      · right; left; rfl
  · left; rfl

lemma fwcfCountZeros_pnone (fc : Char) (d : Nat) : fwcfCountZeros fc PNONE d = 0 := by
  unfold fwcfCountZeros
  simp

/-- C5: for every integer directive whose printable content (sign, base
prefix, precision zeros, digits) is shorter than the width, the emitted
field is exactly `width` characters long; the padding is right spaces
under the left-justify flag, left zeros placed between sign/prefix and
digits when the zero-fill flag is set with no explicit precision, and
left spaces otherwise — in particular an explicit precision disables the
zero-fill flag for width padding. -/
theorem C5_width_padding (fc : Char) (isSigned : Bool) (width prec flags i : Nat)
    (hfc : fc ∈ cdiuoxXStr)
    (hlt : totalPrintable fc isSigned prec flags i < width) :
    (fwcfCore fc isSigned width prec flags i).length = width ∧
    (leftB flags = true →
      (fwcfLayout fc isSigned width prec flags i).padL = 0 ∧
      (fwcfLayout fc isSigned width prec flags i).padR
        = width - totalPrintable fc isSigned prec flags i ∧
      (fwcfLayout fc isSigned width prec flags i).zeros
        = fwcfCountZeros fc prec (fwcfDigits fc isSigned i).length) ∧
    (leftB flags = false → fillB flags = true → prec = PNONE →
      (fwcfLayout fc isSigned width prec flags i).padL = 0 ∧
      (fwcfLayout fc isSigned width prec flags i).padR = 0 ∧
      (fwcfLayout fc isSigned width prec flags i).zeros
        = width - totalPrintable fc isSigned prec flags i) ∧
    (leftB flags = false → (fillB flags = false ∨ prec ≠ PNONE) →
      (fwcfLayout fc isSigned width prec flags i).padL
        = width - totalPrintable fc isSigned prec flags i ∧
      (fwcfLayout fc isSigned width prec flags i).padR = 0 ∧
      (fwcfLayout fc isSigned width prec flags i).zeros
        = fwcfCountZeros fc prec (fwcfDigits fc isSigned i).length) := by
  have hcb3 := fwcfCountBase_le2 fc flags i
    (fwcfCountZeros fc prec (fwcfDigits fc isSigned i).length)
  have hczp := fwcfCountZeros_pnone fc (fwcfDigits fc isSigned i).length
  unfold totalPrintable at hlt ⊢
  dsimp only at hlt ⊢
  unfold fwcfCore renderLayout fwcfLayout
  dsimp only
  refine ⟨?_, ?_, ?_, ?_⟩
  · rcases hcb3 with hcb | hcb | hcb <;> rw [hcb] <;>
      simp only [List.length_append, List.length_replicate, List.length_cons,
        List.length_nil] <;>
      split_ifs <;> simp_all <;> omega
  · intro hleft
    refine ⟨?_, ?_, ?_⟩ <;> split_ifs <;> simp_all <;> omega
  · intro hleft hfill hpn
    refine ⟨?_, ?_, ?_⟩ <;> split_ifs <;> simp_all <;> omega
  · intro hleft hor
    refine ⟨?_, ?_, ?_⟩ <;> split_ifs <;> simp_all <;> omega

/-- C5 witness: the spec scenario "%5d" with 42 — content length 2,
width 5, right-justified space fill. -/
theorem C5_width_padding_witness :
    ('d' ∈ cdiuoxXStr ∧ totalPrintable 'd' true PNONE 0 42 < 5) ∧
    (fwcfCore 'd' true 5 PNONE 0 42).length = 5 ∧
    (fwcfLayout 'd' true 5 PNONE 0 42).padL
      = 5 - totalPrintable 'd' true PNONE 0 42 := by
  have h := C5_width_padding 'd' true 5 PNONE 0 42 (by decide) (by decide)
  exact ⟨⟨by decide, by decide⟩, h.1, (h.2.2.2 (by decide) (Or.inl (by decide))).1⟩

end SafeFormat
